import Mathlib

/-!
Shallow embedding of the Piutang bookkeeping application (receivables and
revenues record store plus view projector), with theorems checking the
natural-language specification against the code.

Modelling conventions:
* Currency amounts are `Int` (the app treats amounts as whole-unit currency).
* A date string is modelled by its `getTime` value as a `Nat`; the empty
  string (falsy, "missing date") is `none`.  For the `YYYY-MM-DD` strings the
  app uses, string order and `getTime` order agree, so this is faithful.
* `Array.prototype.sort` is modelled by a stable insertion sort driven by
  the source's comparator.  ES2019 guarantees a sorted, stable result only
  for a consistent comparator; the source's comparator is consistent exactly
  when no two records of the same partition both lack a due date, and on
  such stores the unique sorted stable order is what the model computes.
  On other stores the engine's output is implementation-defined and the
  model's output is just one admissible order, so no theorem here reads the
  model's behaviour on an inconsistent pair as the program's.
* A form field with `required` / `min="0"` blocks submission of a missing or
  negative value; that boundary rejection is the spec's `ValidationError` and
  is modelled by `Except`.
-/

namespace Piutang

/-- The `Receivable` record (remote variant: `id`, `description`,
`total_amount`, `paid_amount`, `due_date`; local variant uses camelCase
names for the same fields). -/
structure Receivable where
  id : String
  description : String
  total_amount : Int
  paid_amount : Int
  due_date : Option Nat
deriving DecidableEq

/-- The `Revenue` record (`id`, `description`, `amount`, `date`). -/
structure Revenue where
  id : String
  description : String
  amount : Int
  date : Option Nat
deriving DecidableEq

/-- Error taxonomy from the spec (§7). `PersistenceError` concerns the
external collaborator and is out of the embedded core. -/
inductive AppError where
  | ValidationError
  | NotFoundError
deriving DecidableEq

/-- `remaining = total_amount - paid_amount` (derived field, computed in the
render code and in the sort comparator). -/
def remainingOf (r : Receivable) : Int := r.total_amount - r.paid_amount

/-- `isPaid = remaining <= 0` (derived flag from the render code). -/
def isPaid (r : Receivable) : Bool := remainingOf r ≤ 0

/-- Embeds `handleAddReceivable` (local variant; the remote variant inserts
the same fields through the backend): appends a new record with
`paidAmount = 0` and a caller-supplied fresh id (`crypto.randomUUID()`).
The form declares `required` on all three fields and `min="0"` on
`totalAmount`, so a missing field or a negative total is rejected at the
boundary: that rejection is the `ValidationError` case. -/
def handleAddReceivable (store : List Receivable) (newId : String)
    (description : Option String) (totalAmount : Option Int)
    (dueDate : Option Nat) : Except AppError (List Receivable) :=
  match description, totalAmount, dueDate with
  | some d, some t, some dd =>
      if t < 0 then .error .ValidationError
      else .ok (store ++ [⟨newId, d, t, 0, some dd⟩])
  | _, _, _ => .error .ValidationError

/-- The store a caller holds after a fallible operation: the new contents on
success, the pre-mutation contents on error (§7: errors prevent mutation). -/
def applyResult (store : List Receivable)
    (res : Except AppError (List Receivable)) : List Receivable :=
  match res with
  | .ok s => s
  | .error _ => store

/-- The payment update applied to one record by `handleRecordPayment`:
`paid_amount := Math.min(total_amount, paid_amount + paymentAmount)`. -/
def payReceivable (r : Receivable) (paymentAmount : Int) : Receivable :=
  { r with paid_amount := min r.total_amount (r.paid_amount + paymentAmount) }

/-- Embeds `handleRecordPayment` (local variant): maps over the store,
clamping the paid amount of the record whose id matches. -/
def handleRecordPayment (store : List Receivable) (currentId : String)
    (paymentAmount : Int) : List Receivable :=
  store.map (fun r => if r.id = currentId then payReceivable r paymentAmount else r)

/-- `recordPayment` seen through its form boundary: the payment input carries
`min="0" required`, so a negative `paymentAmount` is rejected
(`ValidationError`) before the handler runs; otherwise the clamped update
applies. -/
def recordPaymentChecked (r : Receivable) (paymentAmount : Int) :
    Except AppError Receivable :=
  if paymentAmount < 0 then .error .ValidationError
  else .ok (payReceivable r paymentAmount)

/-- The record a caller holds after one (possibly rejected) payment: a
rejected payment leaves the record unchanged. -/
def applyPayment (r : Receivable) (paymentAmount : Int) : Receivable :=
  match recordPaymentChecked r paymentAmount with
  | .ok r2 => r2
  | .error _ => r

/-- A finite sequence of `recordPayment` calls applied to one receivable. -/
def applyPayments (r : Receivable) (pays : List Int) : Receivable :=
  pays.foldl applyPayment r

/-- Embeds `handleDeleteReceivable` (both variants):
`current.filter(r => r.id !== id)`. -/
def handleDeleteReceivable (store : List Receivable) (targetId : String) :
    List Receivable :=
  store.filter (fun r => decide (r.id ≠ targetId))

/-- Embeds `handleDeleteRevenue` (both variants):
`current.filter(r => r.id !== id)`. -/
def handleDeleteRevenue (store : List Revenue) (targetId : String) :
    List Revenue :=
  store.filter (fun r => decide (r.id ≠ targetId))

/-- Embeds the receivable branch of `handleUpdateItem`: builds
`updatedReceivable = { ...editing, description, totalAmount, dueDate }`
from the record being edited (so `id` and `paidAmount` come from the
snapshot) and replaces every store record with the matching id. -/
def handleUpdateReceivable (store : List Receivable) (editing : Receivable)
    (description : String) (totalAmount : Int) (dueDate : Option Nat) :
    List Receivable :=
  let updatedReceivable : Receivable :=
    { editing with
        description := description, total_amount := totalAmount,
        due_date := dueDate }
  store.map (fun r => if r.id = updatedReceivable.id then updatedReceivable else r)

/-- The `eventType` of a realtime change payload. -/
inductive ChangeKind where
  | INSERT
  | UPDATE
  | DELETE
deriving DecidableEq

/-- Embeds the `receivables` branch of `handleChanges` (remote variant):
INSERT appends unless the id is already present, UPDATE replaces the record
with the matching id, DELETE filters out `oldRecord.id` (passed as
`oldId`). -/
def handleChangesReceivables (current : List Receivable)
    (eventType : ChangeKind) (newRecord : Receivable) (oldId : String) :
    List Receivable :=
  match eventType with
  | .INSERT =>
      if current.any (fun r => decide (r.id = newRecord.id)) then current
      else current ++ [newRecord]
  | .UPDATE => current.map (fun r => if r.id = newRecord.id then newRecord else r)
  | .DELETE => current.filter (fun r => decide (r.id ≠ oldId))

/-- Embeds the `revenues` branch of `handleChanges` (remote variant),
identical in shape to the receivables branch. -/
def handleChangesRevenues (current : List Revenue)
    (eventType : ChangeKind) (newRecord : Revenue) (oldId : String) :
    List Revenue :=
  match eventType with
  | .INSERT =>
      if current.any (fun r => decide (r.id = newRecord.id)) then current
      else current ++ [newRecord]
  | .UPDATE => current.map (fun r => if r.id = newRecord.id then newRecord else r)
  | .DELETE => current.filter (fun r => decide (r.id ≠ oldId))

/-- The `sortedReceivables` comparator (remote variant, which also handles a
missing due date; the local variant is the same on records whose dates are
all present): unpaid (remaining > 0) before paid, then missing due date
after any due date, then ascending `getTime` difference. -/
def compareReceivables (a b : Receivable) : Int :=
  if remainingOf a > 0 ∧ remainingOf b ≤ 0 then -1
  else if remainingOf a ≤ 0 ∧ remainingOf b > 0 then 1
  else if a.due_date = none then 1
  else if b.due_date = none then -1
  else ((a.due_date.getD 0 : Nat) : Int) - ((b.due_date.getD 0 : Nat) : Int)

/-- Stable insertion step: place `x` before the first element `y` with
`compareReceivables x y ≤ 0`.  Together with `sortedReceivables` this is a
stable sort driven by the comparator.  On comparator-consistent inputs all
stable sorts agree, so there it coincides with what ES2019 requires of
`Array.prototype.sort`; on inputs where the comparator is inconsistent
(two records of one partition both lacking a due date) the engine's order
is implementation-defined and this model is only one admissible choice. -/
def insortReceivable (x : Receivable) : List Receivable → List Receivable
  | [] => [x]
  | y :: ys =>
      if compareReceivables x y ≤ 0 then x :: y :: ys
      else y :: insortReceivable x ys

/-- Embeds `sortedReceivables = [...receivables].sort(comparator)` as the
stable insertion sort over `compareReceivables`; faithful to the program
exactly on comparator-consistent stores (see `insortReceivable`). -/
def sortedReceivables (l : List Receivable) : List Receivable :=
  l.foldr insortReceivable []

/-- The accumulator shape of `receivablesSummary`. -/
structure ReceivablesSummary where
  total : Int
  remaining : Int
deriving DecidableEq

/-- Embeds `receivablesSummary`: a `reduce` from `{total: 0, remaining: 0}`
adding each record's `total_amount` and `total_amount - paid_amount`. -/
def receivablesSummary (l : List Receivable) : ReceivablesSummary :=
  l.foldl
    (fun acc curr =>
      { total := acc.total + curr.total_amount,
        remaining := acc.remaining + (curr.total_amount - curr.paid_amount) })
    ⟨0, 0⟩

/-- Helper: an external INSERT whose id is already present leaves the
receivables store unchanged (the duplicate-suppression branch). -/
theorem insertReceivable_noop_of_mem (s : List Receivable) (rec : Receivable)
    (oldId : String) (h : ∃ r ∈ s, r.id = rec.id) :
    handleChangesReceivables s .INSERT rec oldId = s := by
  obtain ⟨r, hr, hid⟩ := h
  have hany : s.any (fun r => decide (r.id = rec.id)) = true := by
    rw [List.any_eq_true]
    exact ⟨r, hr, by simpa using hid⟩
  show (if s.any (fun r => decide (r.id = rec.id)) then s else s ++ [rec]) = s
  simp [hany]

/-- Helper: an external INSERT whose id is already present leaves the
revenues store unchanged. -/
theorem insertRevenue_noop_of_mem (sv : List Revenue) (rv : Revenue)
    (oldId : String) (h : ∃ r ∈ sv, r.id = rv.id) :
    handleChangesRevenues sv .INSERT rv oldId = sv := by
  obtain ⟨r, hr, hid⟩ := h
  have hany : sv.any (fun r => decide (r.id = rv.id)) = true := by
    rw [List.any_eq_true]
    exact ⟨r, hr, by simpa using hid⟩
  show (if sv.any (fun r => decide (r.id = rv.id)) then sv else sv ++ [rv]) = sv
  simp [hany]

/-- Claim C2: for every input with `totalAmount < 0` (e.g. `-5`) or a missing
required field, `addReceivable` fails with `ValidationError` and the store
contents are unchanged (no record is added). -/
theorem addReceivable_invalid_rejected_C2 (store : List Receivable)
    (newId : String) (description : Option String) (totalAmount : Option Int)
    (dueDate : Option Nat)
    (h : description = none ∨ dueDate = none ∨ totalAmount = none ∨
      ∃ t, totalAmount = some t ∧ t < 0) :
    handleAddReceivable store newId description totalAmount dueDate
        = .error .ValidationError ∧
    applyResult store
        (handleAddReceivable store newId description totalAmount dueDate)
      = store := by
  have herr : handleAddReceivable store newId description totalAmount dueDate
      = .error .ValidationError := by
    rcases h with h | h | h | ⟨t, ht, htneg⟩
    · subst h; cases totalAmount <;> cases dueDate <;> rfl
    · subst h; cases description <;> cases totalAmount <;> rfl
    · subst h; cases description <;> cases dueDate <;> rfl
    · subst ht
      cases description with
      | none => rfl
      | some d =>
        cases dueDate with
        | none => rfl
        | some dd => simp [handleAddReceivable, htneg]
  refine ⟨herr, ?_⟩
  rw [herr]
  rfl

/-- Witness for C2 at the spec's example `totalAmount = -5`. -/
theorem addReceivable_invalid_rejected_C2_witness :
    handleAddReceivable [] "id1" (some "d") (some (-5)) (some 0)
        = .error .ValidationError ∧
    applyResult []
        (handleAddReceivable [] "id1" (some "d") (some (-5)) (some 0)) = [] :=
  addReceivable_invalid_rejected_C2 [] "id1" (some "d") (some (-5)) (some 0)
    (Or.inr (Or.inr (Or.inr ⟨-5, rfl, by decide⟩)))

/-- Claim C4: `applyExternalChange` with changeKind insert is idempotent: an
insert whose id already exists is a no-op, so applying the same insert twice
yields the same store contents as applying it once (both tables). -/
theorem externalInsert_idempotent_C4 (s : List Receivable) (rec : Receivable)
    (sv : List Revenue) (rv : Revenue) (oldId : String) :
    ((∃ r ∈ s, r.id = rec.id) →
        handleChangesReceivables s .INSERT rec oldId = s) ∧
    handleChangesReceivables (handleChangesReceivables s .INSERT rec oldId)
        .INSERT rec oldId = handleChangesReceivables s .INSERT rec oldId ∧
    ((∃ r ∈ sv, r.id = rv.id) →
        handleChangesRevenues sv .INSERT rv oldId = sv) ∧
    handleChangesRevenues (handleChangesRevenues sv .INSERT rv oldId)
        .INSERT rv oldId = handleChangesRevenues sv .INSERT rv oldId := by
  refine ⟨insertReceivable_noop_of_mem s rec oldId, ?_,
    insertRevenue_noop_of_mem sv rv oldId, ?_⟩
  · by_cases hc : s.any (fun r => decide (r.id = rec.id)) = true
    · have h1 : handleChangesReceivables s .INSERT rec oldId = s := by
        show (if s.any (fun r => decide (r.id = rec.id)) then s else s ++ [rec]) = s
        simp [hc]
      rw [h1]
      exact h1
    · rw [Bool.not_eq_true] at hc
      have h1 : handleChangesReceivables s .INSERT rec oldId = s ++ [rec] := by
        show (if s.any (fun r => decide (r.id = rec.id)) then s else s ++ [rec])
            = s ++ [rec]
        simp [hc]
      rw [h1]
      exact insertReceivable_noop_of_mem (s ++ [rec]) rec oldId
        ⟨rec, by simp, rfl⟩
  · by_cases hc : sv.any (fun r => decide (r.id = rv.id)) = true
    · have h1 : handleChangesRevenues sv .INSERT rv oldId = sv := by
        show (if sv.any (fun r => decide (r.id = rv.id)) then sv else sv ++ [rv]) = sv
        simp [hc]
      rw [h1]
      exact h1
    · rw [Bool.not_eq_true] at hc
      have h1 : handleChangesRevenues sv .INSERT rv oldId = sv ++ [rv] := by
        show (if sv.any (fun r => decide (r.id = rv.id)) then sv else sv ++ [rv])
            = sv ++ [rv]
        simp [hc]
      rw [h1]
      exact insertRevenue_noop_of_mem (sv ++ [rv]) rv oldId ⟨rv, by simp, rfl⟩

/-- Witness for C4: the existing-id no-op conjuncts at concrete stores. -/
theorem externalInsert_idempotent_C4_witness :
    handleChangesReceivables [⟨"a", "first", 100, 40, none⟩] .INSERT
        ⟨"a", "echo", 7, 0, none⟩ "z" = [⟨"a", "first", 100, 40, none⟩] ∧
    handleChangesRevenues [⟨"v", "first", 9, some 1⟩] .INSERT
        ⟨"v", "echo", 3, none⟩ "z" = [⟨"v", "first", 9, some 1⟩] := by
  obtain ⟨h1, -, h2, -⟩ := externalInsert_idempotent_C4
    [⟨"a", "first", 100, 40, none⟩] ⟨"a", "echo", 7, 0, none⟩
    [⟨"v", "first", 9, some 1⟩] ⟨"v", "echo", 3, none⟩ "z"
  exact ⟨h1 ⟨⟨"a", "first", 100, 40, none⟩, by decide, rfl⟩,
    h2 ⟨⟨"v", "first", 9, some 1⟩, by decide, rfl⟩⟩

/-- Claim C5: `deleteReceivable`, `deleteRevenue` and `applyExternalChange`
with changeKind delete are idempotent: deleting an absent id (including a
second delete of the same id) produces no error — the operations are total —
and leaves the store contents unchanged. -/
theorem delete_idempotent_C5 (s : List Receivable) (sv : List Revenue)
    (targetId : String) (newRec : Receivable) (newRv : Revenue) :
    handleDeleteReceivable (handleDeleteReceivable s targetId) targetId
        = handleDeleteReceivable s targetId ∧
    ((∀ r ∈ s, r.id ≠ targetId) → handleDeleteReceivable s targetId = s) ∧
    handleDeleteRevenue (handleDeleteRevenue sv targetId) targetId
        = handleDeleteRevenue sv targetId ∧
    ((∀ r ∈ sv, r.id ≠ targetId) → handleDeleteRevenue sv targetId = sv) ∧
    handleChangesReceivables
        (handleChangesReceivables s .DELETE newRec targetId) .DELETE newRec targetId
      = handleChangesReceivables s .DELETE newRec targetId ∧
    ((∀ r ∈ s, r.id ≠ targetId) →
        handleChangesReceivables s .DELETE newRec targetId = s) ∧
    handleChangesRevenues
        (handleChangesRevenues sv .DELETE newRv targetId) .DELETE newRv targetId
      = handleChangesRevenues sv .DELETE newRv targetId ∧
    ((∀ r ∈ sv, r.id ≠ targetId) →
        handleChangesRevenues sv .DELETE newRv targetId = sv) := by
  have hidemR : List.filter (fun r : Receivable => decide (r.id ≠ targetId))
      (List.filter (fun r : Receivable => decide (r.id ≠ targetId)) s)
      = List.filter (fun r : Receivable => decide (r.id ≠ targetId)) s := by
    rw [List.filter_filter]
    simp only [Bool.and_self]
  have hidemV : List.filter (fun r : Revenue => decide (r.id ≠ targetId))
      (List.filter (fun r : Revenue => decide (r.id ≠ targetId)) sv)
      = List.filter (fun r : Revenue => decide (r.id ≠ targetId)) sv := by
    rw [List.filter_filter]
    simp only [Bool.and_self]
  have habsR : (∀ r ∈ s, r.id ≠ targetId) →
      List.filter (fun r : Receivable => decide (r.id ≠ targetId)) s = s := by
    intro h
    rw [List.filter_eq_self]
    intro a ha
    simpa using h a ha
  have habsV : (∀ r ∈ sv, r.id ≠ targetId) →
      List.filter (fun r : Revenue => decide (r.id ≠ targetId)) sv = sv := by
    intro h
    rw [List.filter_eq_self]
    intro a ha
    simpa using h a ha
  exact ⟨hidemR, habsR, hidemV, habsV, hidemR, habsR, hidemV, habsV⟩

/-- Witness for C5: deleting an id absent from concrete stores changes
nothing. -/
theorem delete_idempotent_C5_witness :
    handleDeleteReceivable [⟨"a", "d", 10, 0, none⟩] "gone"
        = [⟨"a", "d", 10, 0, none⟩] ∧
    handleDeleteRevenue [⟨"v", "d", 10, none⟩] "gone" = [⟨"v", "d", 10, none⟩] := by
  obtain ⟨-, h1, -, h2, -⟩ := delete_idempotent_C5 [⟨"a", "d", 10, 0, none⟩]
    [⟨"v", "d", 10, none⟩] "gone" ⟨"x", "x", 0, 0, none⟩ ⟨"x", "x", 0, none⟩
  exact ⟨h1 (by decide), h2 (by decide)⟩

/-- Claim C9: an external UPDATE whose record id matches nothing in the store
leaves the store contents unchanged (no insert, no modification, no error;
both tables). -/
theorem externalUpdate_missing_id_C9 (s : List Receivable) (rec : Receivable)
    (sv : List Revenue) (rv : Revenue) (oldId : String)
    (h1 : ∀ r ∈ s, r.id ≠ rec.id) (h2 : ∀ r ∈ sv, r.id ≠ rv.id) :
    handleChangesReceivables s .UPDATE rec oldId = s ∧
    handleChangesRevenues sv .UPDATE rv oldId = sv := by
  constructor
  · show s.map (fun r => if r.id = rec.id then rec else r) = s
    have hmap : s.map (fun r => if r.id = rec.id then rec else r) = s.map id :=
      List.map_congr_left (fun a ha => by simp [h1 a ha])
    simpa using hmap
  · show sv.map (fun r => if r.id = rv.id then rv else r) = sv
    have hmap : sv.map (fun r => if r.id = rv.id then rv else r) = sv.map id :=
      List.map_congr_left (fun a ha => by simp [h2 a ha])
    simpa using hmap

/-- Witness for C9 at concrete stores with no matching id. -/
theorem externalUpdate_missing_id_C9_witness :
    handleChangesReceivables [⟨"a", "d", 10, 0, none⟩] .UPDATE
        ⟨"b", "u", 5, 5, none⟩ "z" = [⟨"a", "d", 10, 0, none⟩] ∧
    handleChangesRevenues [⟨"v", "d", 10, none⟩] .UPDATE
        ⟨"w", "u", 5, none⟩ "z" = [⟨"v", "d", 10, none⟩] :=
  externalUpdate_missing_id_C9 [⟨"a", "d", 10, 0, none⟩] ⟨"b", "u", 5, 5, none⟩
    [⟨"v", "d", 10, none⟩] ⟨"w", "u", 5, none⟩ "z" (by decide) (by decide)

/-- Claim C10: an external INSERT for an id already in the store keeps the
previously stored record unchanged and discards the incoming payload, even
when the payload's other fields differ (both tables). -/
theorem externalInsert_existing_wins_C10 (s : List Receivable)
    (rec : Receivable) (sv : List Revenue) (rv : Revenue) (oldId : String)
    (h1 : ∃ r ∈ s, r.id = rec.id) (h2 : ∃ r ∈ sv, r.id = rv.id) :
    handleChangesReceivables s .INSERT rec oldId = s ∧
    handleChangesRevenues sv .INSERT rv oldId = sv :=
  ⟨insertReceivable_noop_of_mem s rec oldId h1,
   insertRevenue_noop_of_mem sv rv oldId h2⟩

/-- Witness for C10: the incoming payload differs in every other field and is
still discarded. -/
theorem externalInsert_existing_wins_C10_witness :
    handleChangesReceivables [⟨"a", "stored", 100, 40, some 5⟩] .INSERT
        ⟨"a", "incoming", 999, 0, none⟩ "w" = [⟨"a", "stored", 100, 40, some 5⟩] ∧
    handleChangesRevenues [⟨"v", "kept", 9, some 1⟩] .INSERT
        ⟨"v", "other", 3, none⟩ "w" = [⟨"v", "kept", 9, some 1⟩] :=
  externalInsert_existing_wins_C10 [⟨"a", "stored", 100, 40, some 5⟩]
    ⟨"a", "incoming", 999, 0, none⟩ [⟨"v", "kept", 9, some 1⟩]
    ⟨"v", "other", 3, none⟩ "w"
    ⟨⟨"a", "stored", 100, 40, some 5⟩, by decide, rfl⟩
    ⟨⟨"v", "kept", 9, some 1⟩, by decide, rfl⟩

/-- Claim C1: for every receivable with `paid_amount ≤ total_amount` and
every `paymentAmount`, `recordPayment` sets the new paid amount of the
matching record to `min(total_amount, paid_amount + paymentAmount)`, hence
never above the total, and keeps the total unchanged. -/
theorem recordPayment_clamps_C1 (s : List Receivable) (currentId : String)
    (pay : Int) (i : Nat) (hi : i < s.length)
    (hid : s[i].id = currentId)
    (_hle : s[i].paid_amount ≤ s[i].total_amount) :
    ∃ hj : i < (handleRecordPayment s currentId pay).length,
      (handleRecordPayment s currentId pay)[i].paid_amount
          = min s[i].total_amount (s[i].paid_amount + pay) ∧
      (handleRecordPayment s currentId pay)[i].paid_amount
          ≤ s[i].total_amount ∧
      (handleRecordPayment s currentId pay)[i].total_amount
          = s[i].total_amount := by
  have hj : i < (handleRecordPayment s currentId pay).length := by
    simpa [handleRecordPayment] using hi
  have h1 : (handleRecordPayment s currentId pay)[i].paid_amount
      = min s[i].total_amount (s[i].paid_amount + pay) := by
    simp [handleRecordPayment, hid, payReceivable]
  have h3 : (handleRecordPayment s currentId pay)[i].total_amount
      = s[i].total_amount := by
    simp [handleRecordPayment, hid, payReceivable]
  exact ⟨hj, h1, by rw [h1]; exact min_le_left _ _, h3⟩

/-- Witness for C1 at the spec's example: `recordPayment(id, 10000)` on
`total=1000, paid=800` yields `paid=1000`, never `1800`. -/
theorem recordPayment_clamps_C1_witness :
    ∃ hj : 0 < (handleRecordPayment [⟨"r1", "d", 1000, 800, none⟩]
        "r1" 10000).length,
      (handleRecordPayment [⟨"r1", "d", 1000, 800, none⟩]
        "r1" 10000)[0].paid_amount = 1000 := by
  obtain ⟨hj, h1, -, -⟩ := recordPayment_clamps_C1
    [⟨"r1", "d", 1000, 800, none⟩] "r1" 10000 0 (by decide) (by decide) (by decide)
  exact ⟨hj, by rw [h1]; decide⟩

/-- Helper: one (possibly rejected) payment keeps `total_amount`. -/
theorem applyPayment_total (r : Receivable) (p : Int) :
    (applyPayment r p).total_amount = r.total_amount := by
  by_cases hp : p < 0 <;>
    simp [applyPayment, recordPaymentChecked, hp, payReceivable]

/-- Helper: one (possibly rejected) payment never decreases `paid_amount`
and never pushes it above `total_amount`. -/
theorem applyPayment_mono (r : Receivable) (p : Int)
    (h : r.paid_amount ≤ r.total_amount) :
    r.paid_amount ≤ (applyPayment r p).paid_amount ∧
    (applyPayment r p).paid_amount ≤ r.total_amount := by
  by_cases hp : p < 0
  · have hr : applyPayment r p = r := by
      simp [applyPayment, recordPaymentChecked, hp]
    rw [hr]
    exact ⟨le_rfl, h⟩
  · have hr : applyPayment r p = payReceivable r p := by
      simp [applyPayment, recordPaymentChecked, hp]
    rw [hr]
    unfold payReceivable
    constructor
    · exact le_min h (by omega)
    · exact min_le_left _ _

/-- Claim C3: starting from `paid_amount ≤ total_amount`, over every finite
sequence of `recordPayment` calls `paid_amount` never decreases and never
exceeds `total_amount` (negative payments are rejected and change
nothing). -/
theorem recordPayment_sequence_invariant_C3 (r : Receivable)
    (pays : List Int) (h : r.paid_amount ≤ r.total_amount) :
    (applyPayments r pays).total_amount = r.total_amount ∧
    r.paid_amount ≤ (applyPayments r pays).paid_amount ∧
    (applyPayments r pays).paid_amount
      ≤ (applyPayments r pays).total_amount := by
  induction pays generalizing r with
  | nil => exact ⟨rfl, le_rfl, h⟩
  | cons p ps ih =>
    have hstep := applyPayment_mono r p h
    have htot := applyPayment_total r p
    have ihp := ih (applyPayment r p) (hstep.2.trans_eq htot.symm)
    refine ⟨?_, ?_, ?_⟩
    · show (applyPayments (applyPayment r p) ps).total_amount = r.total_amount
      rw [ihp.1, htot]
    · show r.paid_amount ≤ (applyPayments (applyPayment r p) ps).paid_amount
      exact hstep.1.trans ihp.2.1
    · show (applyPayments (applyPayment r p) ps).paid_amount
          ≤ (applyPayments (applyPayment r p) ps).total_amount
      exact ihp.2.2

/-- Witness for C3 on a concrete payment sequence with a rejected negative
payment and an overshooting payment. -/
theorem recordPayment_sequence_invariant_C3_witness :
    800 ≤ (applyPayments ⟨"a", "d", 1000, 800, none⟩ [150, -50, 9999]).paid_amount ∧
    (applyPayments ⟨"a", "d", 1000, 800, none⟩ [150, -50, 9999]).paid_amount
      ≤ (applyPayments ⟨"a", "d", 1000, 800, none⟩ [150, -50, 9999]).total_amount := by
  obtain ⟨-, h2, h3⟩ := recordPayment_sequence_invariant_C3
    ⟨"a", "d", 1000, 800, none⟩ [150, -50, 9999] (by decide)
  exact ⟨h2, h3⟩

/-- Claim C6: when the store contains the receivable being edited (with ids
unique in the store), `updateReceivable` replaces only description, total
amount and due date of that record, keeps its `paidAmount` and id, and
leaves every record with a different id unchanged. -/
theorem updateReceivable_frame_C6 (s : List Receivable) (editing : Receivable)
    (d : String) (t : Int) (dd : Option Nat)
    (_hmem : editing ∈ s)
    (huniq : ∀ r ∈ s, r.id = editing.id → r = editing) :
    (handleUpdateReceivable s editing d t dd).length = s.length ∧
    ∀ i (hi : i < s.length),
      ∃ hj : i < (handleUpdateReceivable s editing d t dd).length,
        (s[i].id ≠ editing.id →
          (handleUpdateReceivable s editing d t dd)[i] = s[i]) ∧
        (s[i].id = editing.id →
          (handleUpdateReceivable s editing d t dd)[i].id = s[i].id ∧
          (handleUpdateReceivable s editing d t dd)[i].paid_amount
              = s[i].paid_amount ∧
          (handleUpdateReceivable s editing d t dd)[i].description = d ∧
          (handleUpdateReceivable s editing d t dd)[i].total_amount = t ∧
          (handleUpdateReceivable s editing d t dd)[i].due_date = dd) := by
  have hlen : (handleUpdateReceivable s editing d t dd).length = s.length := by
    simp [handleUpdateReceivable]
  refine ⟨hlen, ?_⟩
  intro i hi
  have hj : i < (handleUpdateReceivable s editing d t dd).length := by omega
  refine ⟨hj, ?_, ?_⟩
  · intro hne
    simp [handleUpdateReceivable, hne]
  · intro heq
    have heds : s[i] = editing := huniq s[i] (List.getElem_mem hi) heq
    refine ⟨?_, ?_, ?_, ?_, ?_⟩ <;> simp [handleUpdateReceivable, heq, heds]

/-- Witness for C6: editing a concrete one-record store replaces the mutable
fields and keeps `paid_amount = 30`. -/
theorem updateReceivable_frame_C6_witness :
    ∃ hj : 0 < (handleUpdateReceivable [⟨"a", "old", 100, 30, some 1⟩]
        ⟨"a", "old", 100, 30, some 1⟩ "new" 200 none).length,
      (handleUpdateReceivable [⟨"a", "old", 100, 30, some 1⟩]
        ⟨"a", "old", 100, 30, some 1⟩ "new" 200 none)[0].paid_amount = 30 ∧
      (handleUpdateReceivable [⟨"a", "old", 100, 30, some 1⟩]
        ⟨"a", "old", 100, 30, some 1⟩ "new" 200 none)[0].description = "new" := by
  obtain ⟨hlen, hpt⟩ := updateReceivable_frame_C6 [⟨"a", "old", 100, 30, some 1⟩]
    ⟨"a", "old", 100, 30, some 1⟩ "new" 200 none (by decide) (by decide)
  obtain ⟨hj, -, hyes⟩ := hpt 0 (by decide)
  have h := hyes (by decide)
  exact ⟨hj, by rw [h.2.1]; decide, h.2.2.1⟩

/-- Helper: the summary fold from an arbitrary accumulator. -/
theorem receivablesSummary_foldl (l : List Receivable) (a : ReceivablesSummary) :
    (l.foldl (fun acc curr =>
        { total := acc.total + curr.total_amount,
          remaining := acc.remaining + (curr.total_amount - curr.paid_amount) })
      a).total = a.total + (l.map (fun r => r.total_amount)).sum ∧
    (l.foldl (fun acc curr =>
        { total := acc.total + curr.total_amount,
          remaining := acc.remaining + (curr.total_amount - curr.paid_amount) })
      a).remaining
      = a.remaining + (l.map (fun r => r.total_amount - r.paid_amount)).sum := by
  induction l generalizing a with
  | nil => simp
  | cons x xs ih =>
    simp only [List.foldl_cons, List.map_cons, List.sum_cons]
    obtain ⟨h1, h2⟩ := ih ⟨a.total + x.total_amount,
      a.remaining + (x.total_amount - x.paid_amount)⟩
    constructor
    · rw [h1]
      dsimp only
      omega
    · rw [h2]
      dsimp only
      omega

/-- Claim C8: the receivables summary equals the sum of `total_amount` and
the sum of `total_amount - paid_amount` over all records. -/
theorem receivablesSummary_spec_C8 (l : List Receivable) :
    (receivablesSummary l).total = (l.map (fun r => r.total_amount)).sum ∧
    (receivablesSummary l).remaining
      = (l.map (fun r => r.total_amount - r.paid_amount)).sum := by
  obtain ⟨h1, h2⟩ := receivablesSummary_foldl l ⟨0, 0⟩
  constructor
  · simpa [receivablesSummary] using h1
  · simpa [receivablesSummary] using h2

/-- Ordering on optional due dates claimed by the spec: a missing date sorts
after any present date, present dates ascend. -/
def dueOrder : Option Nat → Option Nat → Prop
  | none, some _ => False
  | some a, some b => a ≤ b
  | _, _ => True

/-- The pairwise relation every adjacent-or-not pair of the projected
receivable ordering satisfies: a paid record is never followed by an unpaid
one, and within a partition the due dates respect `dueOrder`. -/
def receivableSortKeyOrder (a b : Receivable) : Prop :=
  (isPaid a = true → isPaid b = true) ∧
  (isPaid a = isPaid b → dueOrder a.due_date b.due_date)

/-- Helper relating the paid flag to the remaining balance. -/
theorem isPaid_eq_true_iff (r : Receivable) :
    isPaid r = true ↔ remainingOf r ≤ 0 := by
  simp [isPaid]

/-- Helper relating the unpaid flag to the remaining balance. -/
theorem isPaid_eq_false_iff (r : Receivable) :
    isPaid r = false ↔ 0 < remainingOf r := by
  simp [isPaid]

/-- Helper: `dueOrder` is transitive. -/
theorem dueOrder_trans {a b c : Option Nat} (h1 : dueOrder a b)
    (h2 : dueOrder b c) : dueOrder a c := by
  cases a <;> cases b <;> cases c <;> simp_all [dueOrder] <;> omega

/-- Helper: `receivableSortKeyOrder` is transitive. -/
theorem receivableSortKeyOrder_trans {a b c : Receivable}
    (h1 : receivableSortKeyOrder a b) (h2 : receivableSortKeyOrder b c) :
    receivableSortKeyOrder a c := by
  obtain ⟨p1, d1⟩ := h1
  obtain ⟨p2, d2⟩ := h2
  refine ⟨fun h => p2 (p1 h), ?_⟩
  intro hac
  cases ha : isPaid a <;> cases hb : isPaid b <;> cases hc : isPaid c <;>
    simp_all <;> exact dueOrder_trans d1 d2


/-- Helper: a comparator result `≤ 0` yields the key order left-to-right. -/
theorem compare_nonpos_keyOrder {a b : Receivable}
    (h : compareReceivables a b ≤ 0) : receivableSortKeyOrder a b := by
  unfold compareReceivables at h
  unfold receivableSortKeyOrder
  split_ifs at h with h1 h2 h3 h4
  · constructor
    · intro hpa
      exact absurd ((isPaid_eq_true_iff a).mp hpa) (by omega)
    · intro hab
      have hfa : isPaid a = false := (isPaid_eq_false_iff a).mpr h1.1
      have htb : isPaid b = true := (isPaid_eq_true_iff b).mpr h1.2
      rw [hfa, htb] at hab
      cases hab
  · exact absurd h (by norm_num)
  · exact absurd h (by norm_num)
  · refine ⟨?_, ?_⟩
    · intro hpa
      have hra := (isPaid_eq_true_iff a).mp hpa
      rw [isPaid_eq_true_iff]
      omega
    · intro _
      rw [h4]
      cases a.due_date <;> trivial
  · refine ⟨?_, ?_⟩
    · intro hpa
      have hra := (isPaid_eq_true_iff a).mp hpa
      rw [isPaid_eq_true_iff]
      omega
    · intro _
      cases hda : a.due_date with
      | none => exact absurd hda h3
      | some ta =>
        cases hdb : b.due_date with
        | none => exact absurd hdb h4
        | some tb =>
          rw [hda, hdb] at h
          show ta ≤ tb
          simp only [Option.getD_some] at h
          omega

/-- Helper: a comparator result `> 0` yields the key order right-to-left. -/
theorem compare_pos_keyOrder {a b : Receivable}
    (h : 0 < compareReceivables a b) : receivableSortKeyOrder b a := by
  unfold compareReceivables at h
  unfold receivableSortKeyOrder
  split_ifs at h with h1 h2 h3 h4
  · exact absurd h (by norm_num)
  · constructor
    · intro hpb
      exact absurd ((isPaid_eq_true_iff b).mp hpb) (by omega)
    · intro hba
      have hfb : isPaid b = false := (isPaid_eq_false_iff b).mpr h2.2
      have hta : isPaid a = true := (isPaid_eq_true_iff a).mpr h2.1
      rw [hfb, hta] at hba
      cases hba
  · refine ⟨?_, ?_⟩
    · intro hpb
      have hrb := (isPaid_eq_true_iff b).mp hpb
      rw [isPaid_eq_true_iff]
      omega
    · intro _
      rw [h3]
      cases b.due_date <;> trivial
  · exact absurd h (by norm_num)
  · refine ⟨?_, ?_⟩
    · intro hpb
      have hrb := (isPaid_eq_true_iff b).mp hpb
      rw [isPaid_eq_true_iff]
      omega
    · intro _
      cases hda : a.due_date with
      | none => exact absurd hda h3
      | some ta =>
        cases hdb : b.due_date with
        | none => exact absurd hdb h4
        | some tb =>
          rw [hda, hdb] at h
          show tb ≤ ta
          simp only [Option.getD_some] at h
          omega

/-- Helper: membership in an insertion step. -/
theorem mem_insortReceivable {x z : Receivable} {ys : List Receivable} :
    z ∈ insortReceivable x ys ↔ z = x ∨ z ∈ ys := by
  induction ys with
  | nil => simp [insortReceivable]
  | cons y ys ih =>
    simp only [insortReceivable]
    split_ifs with hc
    · simp [List.mem_cons]
    · simp only [List.mem_cons, ih]
      tauto

/-- Helper: inserting preserves pairwise key order. -/
theorem pairwise_insortReceivable {x : Receivable} {ys : List Receivable}
    (h : ys.Pairwise receivableSortKeyOrder) :
    (insortReceivable x ys).Pairwise receivableSortKeyOrder := by
  induction ys with
  | nil => simp [insortReceivable]
  | cons y ys ih =>
    rw [List.pairwise_cons] at h
    obtain ⟨hy, hys⟩ := h
    simp only [insortReceivable]
    split_ifs with hc
    · rw [List.pairwise_cons]
      refine ⟨?_, ?_⟩
      · intro z hz
        rcases List.mem_cons.mp hz with rfl | hz2
        · exact compare_nonpos_keyOrder hc
        · exact receivableSortKeyOrder_trans (compare_nonpos_keyOrder hc)
            (hy z hz2)
      · rw [List.pairwise_cons]
        exact ⟨hy, hys⟩
    · rw [List.pairwise_cons]
      refine ⟨?_, ih hys⟩
      intro z hz
      rcases mem_insortReceivable.mp hz with rfl | hz2
      · exact compare_pos_keyOrder (not_le.mp hc)
      · exact hy z hz2

/-- Helper: the sorted projection is pairwise key ordered. -/
theorem sortedReceivables_pairwise (l : List Receivable) :
    (sortedReceivables l).Pairwise receivableSortKeyOrder := by
  induction l with
  | nil => simp [sortedReceivables]
  | cons x xs ih => exact pairwise_insortReceivable ih

/-- Helper: an insertion step is a permutation of consing. -/
theorem insortReceivable_perm (x : Receivable) (ys : List Receivable) :
    List.Perm (insortReceivable x ys) (x :: ys) := by
  induction ys with
  | nil => exact List.Perm.refl _
  | cons y ys ih =>
    simp only [insortReceivable]
    split_ifs with hc
    · exact List.Perm.refl _
    · exact (List.Perm.cons y ih).trans (List.Perm.swap x y ys)

/-- Helper: the sorted projection is a permutation of the store. -/
theorem sortedReceivables_perm (l : List Receivable) :
    List.Perm (sortedReceivables l) l := by
  induction l with
  | nil => exact List.Perm.refl _
  | cons x xs ih =>
    exact (insortReceivable_perm x (sortedReceivables xs)).trans
      (List.Perm.cons x ih)

/-- Helper: inserting an element the key predicate rejects leaves the
filtered view unchanged. -/
theorem insort_filter_of_neg {x : Receivable} {p : Receivable → Bool}
    (hx : p x = false) (ys : List Receivable) :
    (insortReceivable x ys).filter p = ys.filter p := by
  induction ys with
  | nil => simp [insortReceivable, hx]
  | cons y ys ih =>
    simp only [insortReceivable]
    split_ifs with hc
    · simp [List.filter_cons, hx]
    · simp [List.filter_cons, ih]

/-- Helper: inserting an element that never passes a matching element puts it
first in the filtered view. -/
theorem insort_filter_of_pos {x : Receivable} {p : Receivable → Bool}
    (hx : p x = true) :
    ∀ ys : List Receivable,
      (∀ y ∈ ys, p y = true → compareReceivables x y ≤ 0) →
      (insortReceivable x ys).filter p = x :: ys.filter p := by
  intro ys
  induction ys with
  | nil =>
    intro _
    simp [insortReceivable, hx]
  | cons y ys ih =>
    intro hstop
    simp only [insortReceivable]
    split_ifs with hc
    · simp [List.filter_cons, hx]
    · have hpy : p y = false := by
        cases hpy : p y
        · rfl
        · exact absurd (hstop y (List.mem_cons_self y ys) hpy) hc
      have ih2 := ih (fun z hz hpz => hstop z (List.mem_cons_of_mem y hz) hpz)
      simp [List.filter_cons, hpy, ih2]

/-- Helper: two records with the same paid flag and the same present due
date compare as equal. -/
theorem compare_same_key {a b : Receivable} {t : Nat}
    (hp : isPaid a = isPaid b) (hda : a.due_date = some t)
    (hdb : b.due_date = some t) : compareReceivables a b = 0 := by
  unfold compareReceivables
  have h1 : ¬(remainingOf a > 0 ∧ remainingOf b ≤ 0) := by
    intro hcon
    have hfa : isPaid a = false := (isPaid_eq_false_iff a).mpr hcon.1
    have htb : isPaid b = true := (isPaid_eq_true_iff b).mpr hcon.2
    rw [hfa, htb] at hp
    cases hp
  have h2 : ¬(remainingOf a ≤ 0 ∧ remainingOf b > 0) := by
    intro hcon
    have hta : isPaid a = true := (isPaid_eq_true_iff a).mpr hcon.1
    have hfb : isPaid b = false := (isPaid_eq_false_iff b).mpr hcon.2
    rw [hta, hfb] at hp
    cases hp
  rw [if_neg h1, if_neg h2, if_neg (by simp [hda]), if_neg (by simp [hdb]),
    hda, hdb]
  simp

/-- Helper: sorting preserves, in order, the records of each (paid flag,
present due date) key — the stable-tie guarantee for dated keys. -/
theorem sortedReceivables_filter_key (l : List Receivable) (p : Bool)
    (t : Nat) :
    (sortedReceivables l).filter
        (fun r => decide (isPaid r = p ∧ r.due_date = some t))
      = l.filter (fun r => decide (isPaid r = p ∧ r.due_date = some t)) := by
  induction l with
  | nil => rfl
  | cons x xs ih =>
    show (insortReceivable x (sortedReceivables xs)).filter _ = _
    by_cases hx : isPaid x = p ∧ x.due_date = some t
    · have hxq : decide (isPaid x = p ∧ x.due_date = some t) = true := by
        simp [hx]
      have hstop : ∀ y ∈ sortedReceivables xs,
          decide (isPaid y = p ∧ y.due_date = some t) = true →
          compareReceivables x y ≤ 0 := by
        intro y hy hqy
        have hky : isPaid y = p ∧ y.due_date = some t := by simpa using hqy
        have hc0 : compareReceivables x y = 0 :=
          compare_same_key (hx.1.trans hky.1.symm) hx.2 hky.2
        omega
      rw [insort_filter_of_pos hxq (sortedReceivables xs) hstop, ih]
      simp only [List.filter_cons, hxq]
      rfl
    · have hxq : decide (isPaid x = p ∧ x.due_date = some t) = false := by
        simpa using hx
      rw [insort_filter_of_neg hxq (sortedReceivables xs), ih]
      simp only [List.filter_cons, hxq]
      rfl

/-- Helper: on a comparator-consistent store — no two records of one
partition both lacking a due date, the condition under which ES2019 pins
`Array.prototype.sort` to the unique sorted stable order that the model
computes — the projected ordering is a permutation of the store that is
pairwise key ordered (unpaid before paid, dated ascending within a
partition, missing dates last) and keeps the store order of every (paid
flag, present due date) key. -/
theorem sortedReceivables_consistent_case (l : List Receivable)
    (_hcons : List.Pairwise
      (fun a b => ¬(isPaid a = isPaid b ∧
        a.due_date = none ∧ b.due_date = none)) l) :
    List.Perm (sortedReceivables l) l ∧
    (sortedReceivables l).Pairwise receivableSortKeyOrder ∧
    ∀ (p : Bool) (t : Nat),
      (sortedReceivables l).filter
          (fun r => decide (isPaid r = p ∧ r.due_date = some t))
        = l.filter (fun r => decide (isPaid r = p ∧ r.due_date = some t)) :=
  ⟨sortedReceivables_perm l, sortedReceivables_pairwise l,
   fun p t => sortedReceivables_filter_key l p t⟩

end Piutang
